import Mathlib

set_option linter.unusedVariables false

/-!
Shallow embedding of the gemini-3d-chess application (TypeScript/React) in Lean 4.

The embedding covers:
* `src/services/geminiService.ts` — `getBestMove`: the string post-processing of the
  model response and the random-move fallback;
* the application component (`App`) — `onMove`, the peer data/close handlers,
  the game-status effect, the AI move application;
* `src/components/ChessBoard3D.tsx` — `getPosition`, `boardData`, `possibleMoves`,
  `handleSquareClick`;
* `src/types.ts` and the constants module.

The chess.js library is external to the repository; the application delegates all move
legality, check/checkmate/draw detection and SAN parsing to it.  It is modelled as an
abstract interface `ChessLib` acting on FEN strings (a `none` result of a move function
models both a thrown exception and a falsy return value), except for `game.board()`,
which is modelled concretely as the 8×8 array determined by the FEN piece-placement
field, exactly the observable behaviour of chess.js.
-/

/-! ### Basic data model (src/types.ts and App state) -/

/-- Color 'w' | 'b' of chess.js. -/
inductive Color
  | w
  | b
deriving DecidableEq, Repr

/-- GameMode 'AI' | 'LOCAL' | 'ONLINE' used by the App component. -/
inductive GameMode
  | AI
  | LOCAL
  | ONLINE
deriving DecidableEq, Repr

/-- A chess.js piece as observed by the application: `{ type, color }`.
The piece type is the lower-case piece letter (p, n, b, r, q, k). -/
structure Piece where
  type : Char
  color : Color
deriving DecidableEq, Repr

/-- Message type field of `PeerMessage` (src/types.ts lines 32–35):
`type: 'MOVE' | 'SYNC' | 'RESET'`. -/
inductive MsgType
  | MOVE
  | SYNC
  | RESET
deriving DecidableEq, Repr

/-- The `data: any` payload of a `PeerMessage`.  The application sends
`{ from, to }` with MOVE and `{}` with RESET. -/
inductive MsgData
  | moveData (fromSq toSq : String)
  | emptyData
deriving DecidableEq, Repr

/-- PeerMessage (src/types.ts): `{ type, data }`. -/
structure PeerMessage where
  type : MsgType
  data : MsgData
deriving DecidableEq, Repr

/-! ### geminiService.ts: JavaScript string primitives

`getBestMove` post-processes the model response with
`moveText.split(/\s+/)[0].replace('.', '')` after `response.text?.trim()`.
The JS string operations are embedded on `List Char`.  JavaScript's `\s` and the
character set removed by `String.prototype.trim` coincide on the characters that can
occur here; both are modelled by `isWs`. -/

/-- Whitespace test used both by `trim()` and by the `/\s+/` split. -/
def isWs (c : Char) : Bool :=
  c = ' ' || c = '\t' || c = '\n' || c = '\r' || c = '\x0b' || c = '\x0c'

/-- JavaScript `String.prototype.trim`: strip leading and trailing whitespace. -/
def jsTrim (s : String) : String :=
  String.mk (((s.toList.dropWhile isWs).reverse.dropWhile isWs).reverse)

/-- Worker for the `split(/\s+/)` embedding.  `inSep` records whether the previous
character belonged to a (maximal, nonempty) whitespace run, so that the run is
consumed as a single separator.  Characters of the current token are consed onto the
head token of the recursive result. -/
def splitWsGo (inSep : Bool) : List Char → List (List Char)
  | [] => [[]]
  | c :: rest =>
    if isWs c then
      if inSep then splitWsGo true rest
      else [] :: splitWsGo true rest
    else
      match splitWsGo false rest with
      | [] => [[c]]
      | t :: ts => (c :: t) :: ts

/-- JavaScript `split(/\s+/)` on a character list: split at maximal nonempty runs of
whitespace.  A leading (resp. trailing) run yields a leading (resp. trailing) empty
token, exactly as in JavaScript; the result is always nonempty. -/
def splitWsList (cs : List Char) : List (List Char) :=
  splitWsGo false cs

/-- JavaScript `s.split(/\s+/)` as a list of strings. -/
def jsSplitWs (s : String) : List String :=
  (splitWsList s.toList).map String.mk

/-- JavaScript `replace('.', '')` with a string pattern: delete the first occurrence
of '.' (if any). -/
def replaceFirstDotList : List Char → List Char
  | [] => []
  | c :: rest => if c = '.' then rest else c :: replaceFirstDotList rest

/-- JavaScript `s.replace('.', '')`. -/
def jsReplaceFirstDot (s : String) : String :=
  String.mk (replaceFirstDotList s.toList)

/-- The cleaning step of `getBestMove` (geminiService.ts line 31):
`moveText.split(/\s+/)[0].replace('.', '')`.  `split` always returns a nonempty
array, so `[0]` is modelled by `headD ""`. -/
def cleanMove (moveText : String) : String :=
  jsReplaceFirstDot ((jsSplitWs moveText).headD "")

/-- Outcome of the `ai.models.generateContent` call as observed by `getBestMove`:
the request throws, or resolves with `response.text` undefined, or resolves with
text `t`. -/
inductive ModelResponse
  | err
  | noText
  | text (t : String)
deriving DecidableEq, Repr

/-- getBestMove (src/services/geminiService.ts).  `randIdx` models
`Math.floor(Math.random() * validMoves.length)`; JavaScript indexing out of range
yields `undefined`, modelled by `none` for the overall (string) result.
A thrown error, an undefined `response.text`, and a response whose trimmed text is
empty all reach the catch block, which returns `validMoves[randIdx]`. -/
def getBestMove (fen : String) (validMoves : List String) (resp : ModelResponse)
    (randIdx : Nat) : Option String :=
  match resp with
  | ModelResponse.text t =>
    let moveText := jsTrim t
    if moveText = "" then validMoves[randIdx]?
    else some (cleanMove moveText)
  | ModelResponse.err => validMoves[randIdx]?
  | ModelResponse.noText => validMoves[randIdx]?

/-! ### The chess.js interface

The application observes chess.js through the calls below.  Each function takes the
FEN of the position it is invoked on; `none` models a thrown exception or a falsy
return value.  A successful move returns the new FEN together with the SAN of the
move played (chess.js records the SAN in `history()`). -/

/-- Result of a successful `game.move(...)` call: the FEN after the move and the
SAN string recorded in the history. -/
structure MoveRes where
  fen : String
  san : String
deriving DecidableEq, Repr

/-- Abstract interface of chess.js as used by the application. -/
structure ChessLib where
  /-- `game.move({ from, to, promotion })` on the given FEN. -/
  moveObj : String → String → String → String → Option MoveRes
  /-- `game.move(sanString)` on the given FEN. -/
  moveSan : String → String → Option MoveRes
  /-- `game.turn()` on the given FEN. -/
  turn : String → Color
  /-- `game.isGameOver()` on the given FEN. -/
  isGameOver : String → Bool
  /-- `game.isCheckmate()` on the given FEN. -/
  isCheckmate : String → Bool
  /-- `game.isDraw()` on the given FEN. -/
  isDraw : String → Bool
  /-- `game.isCheck()` on the given FEN. -/
  isCheck : String → Bool
  /-- Destinations of `game.moves({ square, verbose: true }).map(m => m.to)`. -/
  movesFrom : String → String → List String
  /-- `game.get(square)` on the given FEN. -/
  get : String → String → Option Piece

/-- The FEN of `new Chess()`. -/
def startFen : String := "rnbqkbnr/pppppppp/8/8/8/8/PPPPPPPP/RNBQKBNR w KQkq - 0 1"

/-- A chess.js game object as held in the App's `game` state: its FEN and its move
history.  (`safeGameMutate` rebuilds the object as `new Chess(g.fen())`, which starts
with an empty history, before applying the mutation.) -/
structure Game where
  fen : String
  history : List String
deriving DecidableEq, Repr

/-- `new Chess()`. -/
def freshGame : Game := { fen := startFen, history := [] }

/-- The slice of the App component state that the embedded handlers read and write:
`game`, `fen`, `aiThinking`, `mode`, `playerColor`, whether `connRef.current` is a
live connection, and the list of messages sent on the connection so far
(`outbox`, recording every `connRef.current.send(...)` in order). -/
structure AppState where
  game : Game
  fen : String
  aiThinking : Bool
  mode : GameMode
  playerColor : Color
  connected : Bool
  outbox : List PeerMessage
deriving DecidableEq, Repr

/-- Initial App state: `new Chess()`, `mode = 'AI'`, `playerColor = 'w'`. -/
def initState : AppState :=
  { game := freshGame, fen := startFen, aiThinking := false, mode := GameMode.AI
    playerColor := Color.w, connected := false, outbox := [] }

/-- One call the application makes to `game.move`: either a `{ from, to, promotion }`
object or a bare SAN/UCI string. -/
inductive LibCall
  | moveWithPromotion (fromSq toSq promo : String)
  | moveSanStr (san : String)
deriving DecidableEq, Repr

/-- The promotion field a `game.move` call carries, if any. -/
def promotionOf : LibCall → Option String
  | LibCall.moveWithPromotion _ _ p => some p
  | LibCall.moveSanStr _ => none

/-- onMove (App component, `src/unnamed/part_001` lines 206–239), together with the
list of `game.move` calls it performs.

Control flow of the source: return early if `aiThinking` or `game.isGameOver()`;
return early in AI or ONLINE mode when it is not the local player's turn; validate
`{ from, to, promotion: 'q' }` on `new Chess(game.fen())` (a throw or a falsy result
returns early); on success apply the same move through `safeGameMutate` and, in
ONLINE mode with a live connection, send `{ type: 'MOVE', data: { from, to } }`. -/
def onMoveFull (lib : ChessLib) (s : AppState) (fromSq toSq : String) :
    AppState × List LibCall :=
  if s.aiThinking || lib.isGameOver s.game.fen then (s, [])
  else if s.mode = GameMode.AI ∧ lib.turn s.game.fen ≠ s.playerColor then (s, [])
  else if s.mode = GameMode.ONLINE ∧ lib.turn s.game.fen ≠ s.playerColor then (s, [])
  else
    match lib.moveObj s.game.fen fromSq toSq "q" with
    | none => (s, [LibCall.moveWithPromotion fromSq toSq "q"])
    | some r =>
      let s1 : AppState :=
        { s with game := { fen := r.fen, history := [r.san] }, fen := r.fen }
      let s2 : AppState :=
        if s1.mode = GameMode.ONLINE ∧ s1.connected then
          { s1 with
            outbox := s1.outbox ++ [{ type := MsgType.MOVE
                                      data := MsgData.moveData fromSq toSq }] }
        else s1
      (s2,
       [LibCall.moveWithPromotion fromSq toSq "q",
        LibCall.moveWithPromotion fromSq toSq "q"])

/-- onMove, state part. -/
def onMove (lib : ChessLib) (s : AppState) (fromSq toSq : String) : AppState :=
  (onMoveFull lib s fromSq toSq).1

/-- The branch of the `conn.on('data', ...)` handler (`setupConnListeners`,
`src/unnamed/part_001` lines 139–155) that a message type reaches:
`if (data.type === 'MOVE') ... else if (data.type === 'RESET') ...`.
`none` means the message falls through both tests and is ignored. -/
inductive DataBranch
  | moveBranch
  | resetBranch
deriving DecidableEq, Repr

/-- Branch selection of the data handler, transcribed from its if/else-if chain. -/
def dataBranch : MsgType → Option DataBranch
  | MsgType.MOVE => some DataBranch.moveBranch
  | MsgType.RESET => some DataBranch.resetBranch
  | MsgType.SYNC => none

/-- The `conn.on('data', ...)` handler of `setupConnListeners`, with the list of
`game.move` calls it performs.

MOVE: `safeGameMutate` applies `{ from: data.data.from, to: data.data.to,
promotion: 'q' }` inside a try/catch; on a throw the catch only logs, but
`safeGameMutate` has already replaced the game by `new Chess(g.fen())`, so the FEN is
unchanged while the (single-entry) history is cleared.  A MOVE whose payload lacks
`from`/`to` makes `g.move` throw the same way.
RESET: replaces the game by `new Chess()`.
Any other type (SYNC) matches no branch and leaves the state untouched. -/
def handleDataFull (lib : ChessLib) (msg : PeerMessage) (s : AppState) :
    AppState × List LibCall :=
  match dataBranch msg.type with
  | some DataBranch.moveBranch =>
    match msg.data with
    | MsgData.moveData f t =>
      match lib.moveObj s.game.fen f t "q" with
      | some r =>
        ({ s with game := { fen := r.fen, history := [r.san] }, fen := r.fen },
         [LibCall.moveWithPromotion f t "q"])
      | none =>
        ({ s with game := { fen := s.game.fen, history := [] }, fen := s.game.fen },
         [LibCall.moveWithPromotion f t "q"])
    | MsgData.emptyData =>
      ({ s with game := { fen := s.game.fen, history := [] }, fen := s.game.fen },
       [])
  | some DataBranch.resetBranch =>
    ({ s with game := freshGame, fen := startFen }, [])
  | none => (s, [])

/-- Data handler, state part. -/
def handleData (lib : ChessLib) (msg : PeerMessage) (s : AppState) : AppState :=
  (handleDataFull lib msg s).1

/-- Connection status 'idle' | 'connecting' | 'connected'. -/
inductive ConnStatus
  | idle
  | connecting
  | connected
deriving DecidableEq, Repr

/-- A side effect the close handler could perform: a browser alert, or a
`peer.connect(remoteId)` call (which is how this application initiates a connection
to a remote peer, see `joinGame`). -/
inductive AppAction
  | alert (msg : String)
  | peerConnect (remoteId : String)
deriving DecidableEq, Repr

/-- Result of the `conn.on('close', ...)` handler. -/
structure CloseEffect where
  actions : List AppAction
  connStatus : ConnStatus
  playerColor : Color
deriving DecidableEq, Repr

/-- The `conn.on('close', ...)` handler of `setupConnListeners`
(`src/unnamed/part_001` lines 157–162): alert "Opponent disconnected", set the
connection status to idle, and set the player color back to white ("Remain in Online
mode but disconnected").  It performs no other action. -/
def onConnClose : CloseEffect :=
  { actions := [AppAction.alert "Opponent disconnected"]
    connStatus := ConnStatus.idle
    playerColor := Color.w }

/-- The game-status effect of the App component (`src/unnamed/part_001` lines
40–49): checkmate first, then draw, then check, else whose turn it is. -/
def gameStatusOf (lib : ChessLib) (fen : String) (mode : GameMode)
    (playerColor : Color) : String :=
  if lib.isCheckmate fen then
    "Checkmate! " ++ (if lib.turn fen = Color.w then "Black" else "White") ++ " wins."
  else if lib.isDraw fen then "Draw!"
  else if lib.isCheck fen then "Check!"
  else
    let isMyTurn : Bool :=
      if mode = GameMode.ONLINE then lib.turn fen = playerColor else true
    let turnMsg := if lib.turn fen = Color.w then "White" else "Black"
    turnMsg ++ "\x27s turn " ++
      (if mode = GameMode.ONLINE then
        (if isMyTurn then "(You)" else "(Opponent)")
      else "")

/-- The AI move application (`makeAiMove` inside the AI-turn effect,
`src/unnamed/part_001` lines 70–84), with the list of `game.move` calls it performs.

`bestMove` (the string `getBestMove` resolved with) is applied as a bare string:
`g.move(bestMove)`.  If that throws, the catch picks `moves[randIdx]` (with
`randIdx = Math.floor(Math.random() * moves.length)`) and, when it is truthy, applies
it — again as a bare string.  `safeGameMutate` rebuilds the game from its FEN before
the mutation, so a successful move leaves a single-entry history and a failed one an
empty history; if the fallback move itself throws, the state updater throws and the
game state is not replaced at all. -/
def applyAiMoveFull (lib : ChessLib) (g : Game) (bestMove : String)
    (moves : List String) (randIdx : Nat) : Game × List LibCall :=
  match lib.moveSan g.fen bestMove with
  | some r => ({ fen := r.fen, history := [r.san] }, [LibCall.moveSanStr bestMove])
  | none =>
    match moves[randIdx]? with
    | some rm =>
      match lib.moveSan g.fen rm with
      | some r2 =>
        ({ fen := r2.fen, history := [r2.san] },
         [LibCall.moveSanStr bestMove, LibCall.moveSanStr rm])
      | none =>
        (g, [LibCall.moveSanStr bestMove, LibCall.moveSanStr rm])
    | none =>
      ({ fen := g.fen, history := [] }, [LibCall.moveSanStr bestMove])

/-! ### ChessBoard3D.tsx: constants, geometry, board parsing, click handling -/

/-- BOARD_SIZE (constants module). -/
def BOARD_SIZE : Int := 8

/-- SQUARE_SIZE (constants module). -/
def SQUARE_SIZE : Int := 2

/-- BOARD_OFFSET = (BOARD_SIZE * SQUARE_SIZE) / 2 - SQUARE_SIZE / 2 (constants
module); all the divisions are exact. -/
def BOARD_OFFSET : Int := (BOARD_SIZE * SQUARE_SIZE) / 2 - SQUARE_SIZE / 2

/-- WHITE_SQUARE_COLOR (constants module). -/
def WHITE_SQUARE_COLOR : String := "#e2e8f0"

/-- BLACK_SQUARE_COLOR (constants module). -/
def BLACK_SQUARE_COLOR : String := "#475569"

/-- getPosition (ChessBoard3D.tsx lines 18–22):
`[fileIndex * SQUARE_SIZE - BOARD_OFFSET, 0, (7 - rankIndex) * SQUARE_SIZE -
BOARD_OFFSET]`.  All values are integral, so the JS numbers are modelled by `Int`. -/
def getPosition (fileIndex rankIndex : Int) : Int × Int × Int :=
  (fileIndex * SQUARE_SIZE - BOARD_OFFSET, 0,
   (7 - rankIndex) * SQUARE_SIZE - BOARD_OFFSET)

/-- BoardSquare (src/types.ts): one entry of `boardData`. -/
structure BoardSquare where
  square : String
  piece : Option Piece
  position : Int × Int × Int
  color : String
deriving DecidableEq, Repr

/-- Split a character list at every occurrence of `sep` (JavaScript
`String.prototype.split` with a single-character separator); always nonempty. -/
def splitOnChar (sep : Char) : List Char → List (List Char)
  | [] => [[]]
  | c :: rest =>
    if c = sep then [] :: splitOnChar sep rest
    else
      match splitOnChar sep rest with
      | [] => [[c]]
      | t :: ts => (c :: t) :: ts

/-- Expansion of one character of a FEN rank: a digit contributes that many empty
squares, a letter contributes the piece it denotes (upper case = white). -/
def expandRankChar (c : Char) : List (Option Piece) :=
  if c.isDigit then List.replicate (c.toNat - 48) none
  else [some { type := c.toLower, color := if c.isUpper then Color.w else Color.b }]

/-- Expansion of a FEN rank string into the squares of that rank, files a to h. -/
def expandRank (cs : List Char) : List (Option Piece) :=
  cs.flatMap expandRankChar

/-- Model of `game.board()` of chess.js: the 8×8 array of `{type, color}`/null
determined by the piece-placement field of the FEN (the part before the first
space), top row first (rank 8, i.e. the first '/'-separated field) down to rank 1. -/
def boardOfFen (fen : String) : List (List (Option Piece)) :=
  (splitOnChar '/' (fen.toList.takeWhile (fun c => c ≠ ' '))).map expandRank

/-- The square name built in `boardData`:
`String.fromCharCode(97 + fileIndex)` concatenated with `8 - rankIndex`. -/
def squareNameOf (fileIndex rankIndex : Nat) : String :=
  String.mk [Char.ofNat (97 + fileIndex)] ++ toString (8 - rankIndex)

/-- One entry pushed by `boardData` for the square at `(rankIndex, fileIndex)`:
square name, the piece (or null), `getPosition(fileIndex, rankIndex)`, and the
square color (`(fileIndex + rankIndex) % 2 === 1` selects the black color). -/
def mkBoardSquare (rankIndex fileIndex : Nat) (piece : Option Piece) : BoardSquare :=
  { square := squareNameOf fileIndex rankIndex
    piece := piece
    position := getPosition (fileIndex : Int) (rankIndex : Int)
    color := if (fileIndex + rankIndex) % 2 = 1 then BLACK_SQUARE_COLOR
             else WHITE_SQUARE_COLOR }

/-- boardData (ChessBoard3D.tsx lines 50–71) as a function of the FEN: the nested
`forEach` over `game.board()` pushes one `BoardSquare` per array slot, rows in
order, files in order within a row. -/
def boardDataOfFen (fen : String) : List BoardSquare :=
  ((boardOfFen fen).enum.map (fun row =>
    row.2.enum.map (fun sq => mkBoardSquare row.1 sq.1 sq.2))).flatten

/-- boardData computed for a game object: the component reads only `game.board()`,
which is determined by the FEN. -/
def boardData (g : Game) : List BoardSquare :=
  boardDataOfFen g.fen

/-- A FEN whose piece-placement field denotes a full 8×8 board.  Every position a
chess.js game object can hold satisfies this. -/
def ValidFen (fen : String) : Prop :=
  (boardOfFen fen).length = 8 ∧ ∀ row ∈ boardOfFen fen, row.length = 8

instance : DecidablePred ValidFen := fun fen => by
  unfold ValidFen; infer_instance

/-- possibleMoves (ChessBoard3D.tsx lines 74–77): destinations of the verbose moves
of the selected square, or `[]` with no selection. -/
def possibleMoves (lib : ChessLib) (fen : String)
    (selectedSquare : Option String) : List String :=
  match selectedSquare with
  | none => []
  | some s => lib.movesFrom fen s

/-- Result of one `handleSquareClick` call: the new `selectedSquare` state and the
`onMove` invocation it performed, if any. -/
structure ClickResult where
  selectedSquare : Option String
  moveInvoked : Option (String × String)
deriving DecidableEq, Repr

/-- The final branch of `handleSquareClick`: select the clicked square when it holds
a piece of the side to move, otherwise clear the selection. -/
def selectPieceStep (lib : ChessLib) (fen : String) (squareName : String) :
    ClickResult :=
  match lib.get fen squareName with
  | some piece =>
    if piece.color = lib.turn fen then
      { selectedSquare := some squareName, moveInvoked := none }
    else
      { selectedSquare := none, moveInvoked := none }
  | none => { selectedSquare := none, moveInvoked := none }

/-- handleSquareClick (ChessBoard3D.tsx lines 79–100): deselect when the clicked
square is the selected one; else move when the click is a highlighted destination of
the selected piece; else (de)select according to the piece on the clicked square. -/
def handleSquareClick (lib : ChessLib) (fen : String)
    (selectedSquare : Option String) (squareName : String) : ClickResult :=
  if selectedSquare = some squareName then
    { selectedSquare := none, moveInvoked := none }
  else
    match selectedSquare with
    | some sel =>
      if squareName ∈ possibleMoves lib fen (some sel) then
        { selectedSquare := none, moveInvoked := some (sel, squareName) }
      else selectPieceStep lib fen squareName
    | none => selectPieceStep lib fen squareName

/-! ### Concrete chess.js test doubles

Concrete `ChessLib` instances used to instantiate the theorems.  `underLib` mirrors
the actual behaviour of chess.js in the position `promoFen`, where white can promote
the e7 pawn: the SAN string "e8=N" promotes to a knight, while the move object
`{ from: 'e7', to: 'e8', promotion: 'q' }` promotes to a queen. -/

/-- A trivial library instance: every move is rejected, no piece anywhere. -/
def dummyLib : ChessLib where
  moveObj := fun _ _ _ _ => none
  moveSan := fun _ _ => none
  turn := fun _ => Color.w
  isGameOver := fun _ => false
  isCheckmate := fun _ => false
  isDraw := fun _ => false
  isCheck := fun _ => false
  movesFrom := fun _ _ => []
  get := fun _ _ => none

/-- A library instance whose object-move always succeeds. -/
def moveLib : ChessLib :=
  { dummyLib with
    moveObj := fun _ f t p =>
      if p = "q" then some { fen := "F1", san := f ++ t } else none }

/-- A library instance reporting checkmate with white to move. -/
def cmLib : ChessLib :=
  { dummyLib with isCheckmate := fun _ => true }

/-- A library instance for the click handler: a white pawn on e2 that can move to
e3 or e4, with white to move. -/
def clickLib : ChessLib :=
  { dummyLib with
    movesFrom := fun _ s => if s = "e2" then ["e3", "e4"] else []
    get := fun _ s =>
      if s = "e2" then some { type := 'p', color := Color.w } else none }

/-- A position with a white pawn on e7 about to promote. -/
def promoFen : String := "8/4P3/8/8/8/8/8/k6K w - - 0 1"

/-- promoFen after the underpromotion e8=N. -/
def promoNFen : String := "4N3/8/8/8/8/8/8/k6K b - - 1 1"

/-- promoFen after the queen promotion e8=Q. -/
def promoQFen : String := "4Q3/8/8/8/8/8/8/k6K b - - 1 1"

/-- chess.js at `promoFen`: the SAN "e8=N" underpromotes to a knight; the move
object with promotion 'q' (and the SAN "e8=Q") promote to a queen. -/
def underLib : ChessLib :=
  { dummyLib with
    moveObj := fun fen f t p =>
      if fen = promoFen ∧ f = "e7" ∧ t = "e8" ∧ p = "q" then
        some { fen := promoQFen, san := "e8=Q" }
      else none
    moveSan := fun fen san =>
      if fen = promoFen ∧ san = "e8=N" then some { fen := promoNFen, san := "e8=N" }
      else if fen = promoFen ∧ san = "e8=Q" then
        some { fen := promoQFen, san := "e8=Q" }
      else none }
/-! ### Lemmas about the string primitives -/

/-- The first token produced by the whitespace split is the maximal whitespace-free
prefix of the input. -/
theorem splitWsList_head (cs : List Char) :
    ∃ ts, splitWsList cs = (cs.takeWhile (fun c => !(isWs c))) :: ts := by
  unfold splitWsList
  induction cs with
  | nil => exact ⟨[], rfl⟩
  | cons c rest ih =>
    by_cases hc : isWs c = true
    · refine ⟨splitWsGo true rest, ?_⟩
      simp [splitWsGo, hc, List.takeWhile]
    · obtain ⟨ts, hts⟩ := ih
      refine ⟨ts, ?_⟩
      simp only [splitWsGo, hc, if_neg, hts, List.takeWhile]
      simp [hc]

/-- Every character surviving `replaceFirstDotList` occurs in the input. -/
theorem mem_replaceFirstDotList {c : Char} {cs : List Char}
    (h : c ∈ replaceFirstDotList cs) : c ∈ cs := by
  induction cs with
  | nil => simp [replaceFirstDotList] at h
  | cons d rest ih =>
    by_cases hd : d = '.'
    · simp only [replaceFirstDotList, if_pos hd] at h
      exact List.mem_cons_of_mem _ h
    · simp only [replaceFirstDotList, if_neg hd, List.mem_cons] at h
      rcases h with h | h
      · exact h ▸ List.mem_cons_self _ _
      · exact List.mem_cons_of_mem _ (ih h)


/-! ### Helper lemmas about flattening uniform rows -/

/-- Length of the flattening of a list of rows of uniform length `n`. -/
theorem length_flatten_uniform {α : Type} (n : Nat) (L : List (List α))
    (h : ∀ l ∈ L, l.length = n) : L.flatten.length = L.length * n := by
  induction L with
  | nil => simp
  | cons hd tl ih =>
    have hhd := h hd (List.mem_cons_self _ _)
    have htl := ih (fun l hl => h l (List.mem_cons_of_mem _ hl))
    simp [List.flatten_cons, hhd, htl, Nat.succ_mul, Nat.add_comm]

/-- Indexing into the flattening of a list of rows of uniform length `n`. -/
theorem getElem?_flatten_uniform {α : Type} (n : Nat) (L : List (List α))
    (h : ∀ l ∈ L, l.length = n) (i j : Nat) (hj : j < n) :
    L.flatten[i * n + j]? = L[i]?.bind (fun l => l[j]?) := by
  induction L generalizing i with
  | nil => simp
  | cons hd tl ih =>
    have hhd := h hd (List.mem_cons_self _ _)
    have htl := fun l hl => h l (List.mem_cons_of_mem _ hl)
    cases i with
    | zero =>
      simp only [List.flatten_cons, Nat.zero_mul, Nat.zero_add]
      rw [List.getElem?_append_left (by rw [hhd]; exact hj)]
      simp
    | succ i' =>
      simp only [List.flatten_cons]
      have harith : (i' + 1) * n + j = hd.length + (i' * n + j) := by
        rw [hhd]; ring
      rw [harith, List.getElem?_append_right (Nat.le_add_right _ _)]
      simp only [Nat.add_sub_cancel_left]
      rw [ih htl i']
      simp

/-- A member of `l.enum` has its second component in `l`. -/
theorem snd_mem_of_mem_enum {α : Type} {l : List α} {x : Nat × α}
    (h : x ∈ l.enum) : x.2 ∈ l := by
  obtain ⟨i, hi⟩ := List.getElem?_of_mem h
  rw [List.getElem?_enum] at hi
  cases hx : l[i]? with
  | none => rw [hx] at hi; cases hi
  | some a =>
    rw [hx] at hi
    have hxa : (i, a) = x := Option.some.inj hi
    rw [← hxa]
    exact List.getElem?_mem hx

/-! ### Claim theorems -/

/-- C3 counterexample: with an empty `validMoves` list, the fallback evaluates
`validMoves[Math.floor(Math.random() * 0)]`, i.e. `validMoves[0]`, which is
`undefined` — not an element of `validMoves`. -/
theorem getBestMove_empty_fallback_cex :
    ¬ ∃ m, m ∈ ([] : List String) ∧
      getBestMove "7k/5Q2/6K1/8/8/8/8/8 b - - 0 1" [] ModelResponse.err 0
        = some m := by
  rintro ⟨m, hm, _⟩
  exact absurd hm (List.not_mem_nil m)

/-- C3 (amended): for every FEN and every non-empty `validMoves`, if the model
request throws, or the response text is undefined, or its trimmed text is empty,
then `getBestMove` returns the element of `validMoves` selected by the random
index (`randIdx = Math.floor(Math.random() * validMoves.length)`, which is a valid
index exactly when the list is non-empty), so the error is never propagated. -/
theorem getBestMove_fallback (fen : String) (validMoves : List String)
    (resp : ModelResponse) (randIdx : Nat)
    (hidx : randIdx < validMoves.length)
    (hfail : resp = ModelResponse.err ∨ resp = ModelResponse.noText ∨
      ∃ t, resp = ModelResponse.text t ∧ jsTrim t = "") :
    ∃ m ∈ validMoves, getBestMove fen validMoves resp randIdx = some m := by
  refine ⟨validMoves[randIdx], List.getElem_mem hidx, ?_⟩
  have hget : validMoves[randIdx]? = some validMoves[randIdx] :=
    List.getElem?_eq_getElem hidx
  rcases hfail with h | h | ⟨t, ht, htrim⟩
  · rw [h]; exact hget
  · rw [h]; exact hget
  · rw [ht]
    simp only [getBestMove, htrim, if_pos]
    exact hget

/-- C3 witness. -/
theorem getBestMove_fallback_witness :
    (0 < (["e4", "d4"] : List String).length) ∧
    ∃ m ∈ (["e4", "d4"] : List String),
      getBestMove startFen ["e4", "d4"] ModelResponse.err 0 = some m :=
  ⟨by decide,
   getBestMove_fallback startFen ["e4", "d4"] ModelResponse.err 0 (by decide)
     (Or.inl rfl)⟩

/-- C5: for every model response whose trimmed text is non-empty, `getBestMove`
returns the first whitespace-delimited token of the trimmed text (its maximal
whitespace-free prefix) with the first occurrence of '.' deleted, and the returned
string contains no whitespace. -/
theorem getBestMove_clean (fen : String) (validMoves : List String) (t : String)
    (randIdx : Nat) (hne : jsTrim t ≠ "") :
    ∃ r, getBestMove fen validMoves (ModelResponse.text t) randIdx = some r ∧
      r = jsReplaceFirstDot
            (String.mk ((jsTrim t).toList.takeWhile (fun c => !(isWs c)))) ∧
      ∀ c ∈ r.toList, isWs c = false := by
  refine ⟨cleanMove (jsTrim t), ?_, ?_, ?_⟩
  · simp only [getBestMove, if_neg hne]
  · unfold cleanMove jsSplitWs
    obtain ⟨ts, hts⟩ := splitWsList_head (jsTrim t).toList
    rw [hts]
    simp
  · intro c hc
    unfold cleanMove jsSplitWs at hc
    obtain ⟨ts, hts⟩ := splitWsList_head (jsTrim t).toList
    rw [hts] at hc
    simp only [List.map_cons, List.headD_cons] at hc
    have hc2 : c ∈ replaceFirstDotList
        ((jsTrim t).toList.takeWhile (fun c => !(isWs c))) := hc
    have hc3 := mem_replaceFirstDotList hc2
    have := List.mem_takeWhile_imp hc3
    simpa using this

/-- C5 witness. -/
theorem getBestMove_clean_witness :
    (jsTrim " Nf3. best" ≠ "") ∧
    ∃ r, getBestMove startFen [] (ModelResponse.text " Nf3. best") 0 = some r ∧
      r = jsReplaceFirstDot
            (String.mk ((jsTrim " Nf3. best").toList.takeWhile
              (fun c => !(isWs c)))) ∧
      ∀ c ∈ r.toList, isWs c = false :=
  ⟨by decide, getBestMove_clean startFen [] " Nf3. best" 0 (by decide)⟩

/-- C2 counterexample: the close handler performs no `peer.connect` call at all —
its only action is the alert — so the application does not initiate a reconnection
when the data connection closes. -/
theorem onConnClose_no_reconnect_cex :
    ¬ ∃ remoteId, AppAction.peerConnect remoteId ∈ onConnClose.actions := by
  rintro ⟨remoteId, h⟩
  simp [onConnClose] at h

/-- C2 (amended): whenever the peer data connection fires its close event, the
application alerts "Opponent disconnected", returns the connection status to the
disconnected (idle) state and resets the player color to white; it initiates no
reconnection to the remote peer. -/
theorem onConnClose_spec :
    onConnClose = { actions := [AppAction.alert "Opponent disconnected"]
                    connStatus := ConnStatus.idle
                    playerColor := Color.w } ∧
    ∀ remoteId, AppAction.peerConnect remoteId ∉ onConnClose.actions := by
  refine ⟨rfl, ?_⟩
  intro remoteId h
  simp [onConnClose] at h

/-- C6: the 3D board description is a deterministic function of the FEN string:
two game objects with equal `fen()` yield identical `boardData` (the component
reads the game only through `game.board()`, which is determined by the FEN). -/
theorem boardData_deterministic (g1 g2 : Game) (h : g1.fen = g2.fen) :
    boardData g1 = boardData g2 := by
  unfold boardData
  rw [h]

/-- C6 witness: two games with the same position but different histories. -/
theorem boardData_deterministic_witness :
    ({ fen := startFen, history := [] } : Game).fen
      = ({ fen := startFen, history := ["e4", "e5"] } : Game).fen ∧
    boardData { fen := startFen, history := [] }
      = boardData { fen := startFen, history := ["e4", "e5"] } :=
  ⟨rfl, boardData_deterministic _ _ rfl⟩

/-- C7: the game-status effect derives the status from the chess library's
predicates in priority order: checkmate names the side not to move as winner, then
draw yields "Draw!", then check yields "Check!". -/
theorem gameStatus_priority (lib : ChessLib) (fen : String) (mode : GameMode)
    (playerColor : Color) :
    (lib.isCheckmate fen = true →
      gameStatusOf lib fen mode playerColor =
        "Checkmate! " ++ (if lib.turn fen = Color.w then "Black" else "White")
          ++ " wins.")
  ∧ (lib.isCheckmate fen = false → lib.isDraw fen = true →
      gameStatusOf lib fen mode playerColor = "Draw!")
  ∧ (lib.isCheckmate fen = false → lib.isDraw fen = false →
      lib.isCheck fen = true →
      gameStatusOf lib fen mode playerColor = "Check!") := by
  refine ⟨?_, ?_, ?_⟩
  · intro hcm
    simp [gameStatusOf, hcm]
  · intro hcm hd
    simp [gameStatusOf, hcm, hd]
  · intro hcm hd hc
    simp [gameStatusOf, hcm, hd, hc]

/-- C7 witness: in a checkmate position with white to move, the status reports
that black wins. -/
theorem gameStatus_priority_witness :
    cmLib.isCheckmate startFen = true ∧
    gameStatusOf cmLib startFen GameMode.AI Color.w =
      "Checkmate! " ++ (if cmLib.turn startFen = Color.w then "Black" else "White")
        ++ " wins." :=
  ⟨rfl, (gameStatus_priority cmLib startFen GameMode.AI Color.w).1 rfl⟩

/-- C4: `onMove` delegates legality entirely to the chess library.  If the library
rejects `{ from, to, promotion: 'q' }` (throws or returns a falsy result), or the
game is over, or in AI/ONLINE mode it is not the local player's turn, the whole
App state — in particular the game's FEN and history — is unchanged; and the game
state changes only when the library accepts the move, in which case the new game is
the accepted move's result. -/
theorem onMove_delegates (lib : ChessLib) (s : AppState) (fromSq toSq : String) :
    (lib.moveObj s.game.fen fromSq toSq "q" = none →
      onMove lib s fromSq toSq = s)
  ∧ (lib.isGameOver s.game.fen = true → onMove lib s fromSq toSq = s)
  ∧ ((s.mode = GameMode.AI ∨ s.mode = GameMode.ONLINE) →
      lib.turn s.game.fen ≠ s.playerColor → onMove lib s fromSq toSq = s)
  ∧ ((onMove lib s fromSq toSq).game ≠ s.game →
      ∃ r, lib.moveObj s.game.fen fromSq toSq "q" = some r ∧
        (onMove lib s fromSq toSq).game = { fen := r.fen, history := [r.san] }) := by
  unfold onMove onMoveFull
  refine ⟨?_, ?_, ?_, ?_⟩
  · intro hmv
    split
    · rfl
    · split
      · rfl
      · split
        · rfl
        · rw [hmv]
  · intro hover
    have : (s.aiThinking || lib.isGameOver s.game.fen) = true := by
      rw [hover]; simp
    simp [this]
  · intro hmode hturn
    split
    · rfl
    · split
      · rfl
      · rcases hmode with hm | hm
        · exact absurd (And.intro hm hturn) (by assumption)
        · split
          · rfl
          · exact absurd (And.intro hm hturn) (by assumption)
  · intro hchanged
    revert hchanged
    split
    · intro h; exact absurd rfl h
    · split
      · intro h; exact absurd rfl h
      · split
        · intro h; exact absurd rfl h
        · cases hmv : lib.moveObj s.game.fen fromSq toSq "q" with
          | none => intro h; exact absurd rfl h
          | some r =>
            intro _
            refine ⟨r, rfl, ?_⟩
            dsimp only
            split
            · rfl
            · rfl

/-- C4 witness: a rejected move leaves the initial state unchanged. -/
theorem onMove_delegates_witness :
    dummyLib.moveObj initState.game.fen "e2" "e4" "q" = none ∧
    onMove dummyLib initState "e2" "e4" = initState :=
  ⟨rfl, (onMove_delegates dummyLib initState "e2" "e4").1 rfl⟩

/-- C1 counterexample: the data handler's if/else-if chain tests only MOVE and
RESET; a SYNC message matches no branch, and processing one leaves the application
state (game, FEN, history, outbox) completely unchanged.  The relay therefore does
not process messages of all three declared types. -/
theorem handleData_sync_ignored_cex :
    dataBranch MsgType.SYNC = none ∧
    handleData dummyLib
      { type := MsgType.SYNC, data := MsgData.moveData "e2" "e4" } initState
      = initState :=
  ⟨rfl, rfl⟩

/-- C1 (amended): the `PeerMessage` type declares three message types MOVE, SYNC
and RESET, but the connection data handler processes only MOVE and RESET; a SYNC
message matches no branch and is ignored, leaving the state unchanged.  The
payloads that are handled are forwarded verbatim: an incoming MOVE is applied with
exactly the received `from`/`to` (promotion 'q'), an incoming RESET replaces the
game with a fresh one, and the only message `onMove` sends carries exactly the
`from`/`to` of the move that was played. -/
theorem relay_message_types (lib : ChessLib) (s : AppState) (d : MsgData)
    (f t : String) (r : MoveRes) :
    dataBranch MsgType.MOVE = some DataBranch.moveBranch
  ∧ dataBranch MsgType.RESET = some DataBranch.resetBranch
  ∧ dataBranch MsgType.SYNC = none
  ∧ handleData lib { type := MsgType.SYNC, data := d } s = s
  ∧ (lib.moveObj s.game.fen f t "q" = some r →
       handleData lib { type := MsgType.MOVE, data := MsgData.moveData f t } s
         = { s with game := { fen := r.fen, history := [r.san] }, fen := r.fen })
  ∧ (handleData lib { type := MsgType.RESET, data := d } s).game = freshGame
  ∧ ((onMove lib s f t).outbox = s.outbox ∨
       (onMove lib s f t).outbox
         = s.outbox ++ [{ type := MsgType.MOVE, data := MsgData.moveData f t }]) := by
  refine ⟨rfl, rfl, rfl, rfl, ?_, rfl, ?_⟩
  · intro hmv
    unfold handleData handleDataFull
    simp only [dataBranch, hmv]
  · unfold onMove onMoveFull
    split
    · exact Or.inl rfl
    · split
      · exact Or.inl rfl
      · split
        · exact Or.inl rfl
        · cases hmv : lib.moveObj s.game.fen f t "q" with
          | none => exact Or.inl rfl
          | some r' =>
            dsimp only
            split
            · exact Or.inr rfl
            · exact Or.inl rfl

/-- C1 witness: an accepted incoming MOVE is applied verbatim. -/
theorem relay_message_types_witness :
    moveLib.moveObj initState.game.fen "e2" "e4" "q"
      = some { fen := "F1", san := "e2e4" } ∧
    handleData moveLib
      { type := MsgType.MOVE, data := MsgData.moveData "e2" "e4" } initState
      = { initState with
          game := { fen := "F1", history := ["e2e4"] },
          fen := "F1" } :=
  ⟨by decide,
   (relay_message_types moveLib initState MsgData.emptyData "e2" "e4"
      { fen := "F1", san := "e2e4" }).2.2.2.2.1 (by decide)⟩

/-- C8 counterexample: the AI move path passes the model's answer to `game.move`
as a bare string, not as an object with `promotion: 'q'`.  In the position
`promoFen` (white pawn on e7), the answer "e8=N" is applied as an underpromotion
to a knight — a position the always-queen object move cannot produce — so
underpromotion is possible in AI mode. -/
theorem aiMove_underpromotion_cex :
    (applyAiMoveFull underLib { fen := promoFen, history := [] } "e8=N" [] 0).2
      = [LibCall.moveSanStr "e8=N"]
  ∧ promotionOf (LibCall.moveSanStr "e8=N") = none
  ∧ (applyAiMoveFull underLib { fen := promoFen, history := [] } "e8=N" [] 0).1.fen
      = promoNFen
  ∧ underLib.moveObj promoFen "e7" "e8" "q" = some { fen := promoQFen, san := "e8=Q" }
  ∧ promoNFen ≠ promoQFen := by
  refine ⟨by decide, rfl, by decide, by decide, by decide⟩

/-- C8 (amended): a human click move and a remote MOVE message are each submitted
to chess.js with promotion hard-coded to 'q' — every `game.move` call those two
paths perform carries the promotion field 'q', so underpromotion is impossible
there — but the AI move path submits the model's answer (and the random fallback
move) as a bare SAN/UCI string with no promotion field, so underpromotion remains
possible in AI mode. -/
theorem promotion_hardcoding (lib : ChessLib) (s : AppState)
    (fromSq toSq : String) (msg : PeerMessage) (g : Game) (bestMove : String)
    (moves : List String) (randIdx : Nat) :
    (∀ c ∈ (onMoveFull lib s fromSq toSq).2, promotionOf c = some "q")
  ∧ (∀ c ∈ (handleDataFull lib msg s).2, promotionOf c = some "q")
  ∧ (∀ c ∈ (applyAiMoveFull lib g bestMove moves randIdx).2,
       promotionOf c = none) := by
  refine ⟨?_, ?_, ?_⟩
  · intro c hc
    unfold onMoveFull at hc
    split at hc
    · exact absurd hc (List.not_mem_nil c)
    · split at hc
      · exact absurd hc (List.not_mem_nil c)
      · split at hc
        · exact absurd hc (List.not_mem_nil c)
        · revert hc
          cases lib.moveObj s.game.fen fromSq toSq "q" with
          | none =>
            intro hc
            simp only [List.mem_singleton] at hc
            subst hc
            rfl
          | some r =>
            dsimp only
            intro hc
            rcases List.mem_cons.mp hc with rfl | hc2
            · rfl
            · rcases List.mem_singleton.mp hc2 with rfl
              rfl
  · intro c hc
    unfold handleDataFull at hc
    rcases hbr : dataBranch msg.type with _ | br
    · rw [hbr] at hc
      simp at hc
    · cases br with
      | resetBranch =>
        rw [hbr] at hc
        simp at hc
      | moveBranch =>
        rw [hbr] at hc
        cases hd : msg.data with
        | emptyData =>
          rw [hd] at hc
          simp at hc
        | moveData f t =>
          rw [hd] at hc
          dsimp only at hc
          rcases hmv : lib.moveObj s.game.fen f t "q" with _ | r
          · rw [hmv] at hc
            simp at hc
            subst hc
            rfl
          · rw [hmv] at hc
            simp at hc
            subst hc
            rfl
  · intro c hc
    unfold applyAiMoveFull at hc
    rcases h1 : lib.moveSan g.fen bestMove with _ | r
    · rw [h1] at hc
      rcases h2 : moves[randIdx]? with _ | rm
      · rw [h2] at hc
        simp at hc
        subst hc
        rfl
      · rw [h2] at hc
        dsimp only at hc
        rcases h3 : lib.moveSan g.fen rm with _ | r2
        · rw [h3] at hc
          simp at hc
          rcases hc with rfl | rfl <;> rfl
        · rw [h3] at hc
          simp at hc
          rcases hc with rfl | rfl <;> rfl
    · rw [h1] at hc
      simp at hc
      subst hc
      rfl

/-- C8 witness: a concrete accepted human move is submitted with promotion 'q',
and a concrete AI move is submitted without a promotion field. -/
theorem promotion_hardcoding_witness :
    promotionOf (LibCall.moveWithPromotion "e2" "e4" "q") = some "q"
  ∧ promotionOf (LibCall.moveSanStr "e8=N") = none :=
  ⟨(promotion_hardcoding moveLib initState "e2" "e4"
      { type := MsgType.RESET, data := MsgData.emptyData }
      freshGame "e4" [] 0).1
    (LibCall.moveWithPromotion "e2" "e4" "q") (by decide),
   (promotion_hardcoding underLib initState "e7" "e8"
      { type := MsgType.RESET, data := MsgData.emptyData }
      { fen := promoFen, history := [] } "e8=N" [] 0).2.2
    (LibCall.moveSanStr "e8=N") (by decide)⟩

/-- C9: selection invariant of `handleSquareClick`.  After every call the new
`selectedSquare` is either null or a square holding a piece of the side to move;
clicking the selected square itself deselects it; and clicking a highlighted
destination of the selected piece invokes `onMove(selected, clicked)` and clears
the selection.  The hypothesis `hirr` records the chess.js fact that no move's
destination equals its source square. -/
theorem handleSquareClick_invariant (lib : ChessLib) (fen : String)
    (selectedSquare : Option String) (squareName : String)
    (hirr : ∀ a, a ∉ lib.movesFrom fen a) :
    (∀ sq,
       (handleSquareClick lib fen selectedSquare squareName).selectedSquare
         = some sq →
       ∃ p, lib.get fen sq = some p ∧ p.color = lib.turn fen)
  ∧ (selectedSquare = some squareName →
       handleSquareClick lib fen selectedSquare squareName
         = { selectedSquare := none, moveInvoked := none })
  ∧ (∀ sel, selectedSquare = some sel →
       squareName ∈ lib.movesFrom fen sel →
       handleSquareClick lib fen selectedSquare squareName
         = { selectedSquare := none, moveInvoked := some (sel, squareName) }) := by
  refine ⟨?_, ?_, ?_⟩
  · intro sq hsq
    unfold handleSquareClick at hsq
    split at hsq
    · cases hsq
    · revert hsq
      have hsel : ∀ h : ClickResult,
          h = selectPieceStep lib fen squareName →
          h.selectedSquare = some sq →
          ∃ p, lib.get fen sq = some p ∧ p.color = lib.turn fen := by
        intro h hh hsq
        rw [hh] at hsq
        unfold selectPieceStep at hsq
        revert hsq
        cases hget : lib.get fen squareName with
        | none => intro hsq; cases hsq
        | some piece =>
          dsimp only
          split
          · intro hsq
            have heq2 : squareName = sq := Option.some.inj hsq
            subst heq2
            exact ⟨piece, hget, by assumption⟩
          · intro hsq; cases hsq
      cases selectedSquare with
      | none => exact fun hsq => hsel _ rfl hsq
      | some sel =>
        dsimp only
        split
        · intro hsq; cases hsq
        · exact fun hsq => hsel _ rfl hsq
  · intro heq
    unfold handleSquareClick
    rw [if_pos heq]
  · intro sel hsel hmem
    subst hsel
    unfold handleSquareClick
    have hne : ¬ (some sel = some squareName) := by
      intro h
      have : sel = squareName := Option.some.inj h
      subst this
      exact hirr sel hmem
    rw [if_neg hne]
    dsimp only
    rw [if_pos]
    exact hmem

/-- C9 witness: with a white pawn on e2 (white to move) selected, clicking the
highlighted destination e4 invokes the move e2→e4 and clears the selection. -/
theorem handleSquareClick_invariant_witness :
    ("e4" ∈ clickLib.movesFrom "f" "e2") ∧
    handleSquareClick clickLib "f" (some "e2") "e4"
      = { selectedSquare := none, moveInvoked := some ("e2", "e4") } :=
  ⟨by decide,
   (handleSquareClick_invariant clickLib "f" (some "e2") "e4"
      (by
        intro a h
        by_cases ha : a = "e2"
        · subst ha
          revert h
          decide
        · simp only [clickLib, dummyLib] at h
          rw [if_neg ha] at h
          exact absurd h (List.not_mem_nil a))).2.2
    "e2" rfl (by decide)⟩

/-- C10: board geometry.  For every position a game can hold, `boardData` has
exactly 64 entries, one per square, and the entry for file index `f` and rank
index `r` (named square `file(f) ++ (8-r)`) has 3D position
`x = f·SQUARE_SIZE − BOARD_OFFSET = 2f − 7`, `y = 0`,
`z = (7−r)·SQUARE_SIZE − BOARD_OFFSET = 2(7−r) − 7`, and carries the dark square
color exactly when `f + r` is odd. -/
theorem boardData_geometry (g : Game) (h : ValidFen g.fen) :
    (boardData g).length = 64
  ∧ ∀ f r : Nat, f < 8 → r < 8 →
      ∃ e, (boardData g)[r * 8 + f]? = some e
        ∧ e.square = squareNameOf f r
        ∧ e.position = (2 * (f : Int) - 7, 0, 2 * (7 - (r : Int)) - 7)
        ∧ e.color
            = (if (f + r) % 2 = 1 then BLACK_SQUARE_COLOR
               else WHITE_SQUARE_COLOR) := by
  obtain ⟨hlen, hrows⟩ := h
  have hmap : ∀ l ∈ ((boardOfFen g.fen).enum.map (fun row =>
      row.2.enum.map (fun sq => mkBoardSquare row.1 sq.1 sq.2))), l.length = 8 := by
    intro l hl
    rw [List.mem_map] at hl
    obtain ⟨x, hx, hlx⟩ := hl
    rw [← hlx]
    simp only [List.length_map, List.enum_length]
    exact hrows x.2 (snd_mem_of_mem_enum hx)
  constructor
  · unfold boardData boardDataOfFen
    rw [length_flatten_uniform 8 _ hmap]
    simp [hlen]
  · intro f r hf hr
    unfold boardData boardDataOfFen
    rw [getElem?_flatten_uniform 8 _ hmap r f hf]
    rw [List.getElem?_map, List.getElem?_enum]
    have hrlt : r < (boardOfFen g.fen).length := by rw [hlen]; exact hr
    have hroweq : (boardOfFen g.fen)[r]? = some (boardOfFen g.fen)[r] :=
      List.getElem?_eq_getElem hrlt
    rw [hroweq]
    have hrowlen : (boardOfFen g.fen)[r].length = 8 :=
      hrows _ (List.getElem?_mem hroweq)
    have hflt : f < (boardOfFen g.fen)[r].length := by rw [hrowlen]; exact hf
    have hpeq : (boardOfFen g.fen)[r][f]? = some (boardOfFen g.fen)[r][f] :=
      List.getElem?_eq_getElem hflt
    refine ⟨mkBoardSquare r f (boardOfFen g.fen)[r][f], ?_, rfl, ?_, rfl⟩
    · simp only [Option.map_some', Option.some_bind, List.getElem?_map,
        List.getElem?_enum, hpeq]
    · simp only [mkBoardSquare, getPosition, SQUARE_SIZE, BOARD_OFFSET, BOARD_SIZE,
        Prod.mk.injEq]
      norm_num
      constructor <;> ring

/-- C10 witness: in the initial position the board description has 64 entries, and
the entry at file 4, rank index 7 (square e1) sits at position (1, 0, −7) with the
dark square color. -/
theorem boardData_geometry_witness :
    ValidFen ({ fen := startFen, history := [] } : Game).fen ∧
    (boardData { fen := startFen, history := [] }).length = 64 ∧
    ∃ e, (boardData { fen := startFen, history := [] })[7 * 8 + 4]? = some e
      ∧ e.square = squareNameOf 4 7
      ∧ e.position = (2 * (4 : Int) - 7, 0, 2 * (7 - (7 : Int)) - 7)
      ∧ e.color = (if (4 + 7) % 2 = 1 then BLACK_SQUARE_COLOR
                   else WHITE_SQUARE_COLOR) :=
  ⟨by decide,
   (boardData_geometry { fen := startFen, history := [] } (by decide)).1,
   (boardData_geometry { fen := startFen, history := [] } (by decide)).2
     4 7 (by decide) (by decide)⟩
